import Mathlib

/-!
Verification development for the pool-route optimizer (`src/main.rs`).

The program is a single Rust file implementing: a haversine distance,
a travel-time estimate, `Stop`/`Route`/`RouteManager` data types, a
nearest-neighbor construction heuristic, a 2-opt local search, and
manager operations moving stops between routes.

Embedding conventions:
* `f64` coordinate and duration data is modelled by `ℚ` (the concrete
  programs only store and compare these values).
* the haversine distance itself is transcendental, so every route
  operation is parameterised by a distance function `D` with the same
  argument signature as `haversine_meters(a_lat, a_lon, b_lat, b_lon)`,
  over an arbitrary linear ordered field `α` of distance values.
  The real-valued `haversine_meters` translated from the source is
  defined below over `ℝ` and is related, on equatorial points, to an
  exactly computable rational distance so that concrete runs of the
  algorithms can be evaluated by the kernel.
* `f64::INFINITY` sentinels are modelled by `Option` (`none` = infinity):
  in `meters_to_minutes` and in the initial `best_dist` of the
  nearest-neighbor scan, those being the only places the source uses it.
* the `while improved` loop of `two_opt` is modelled with explicit fuel;
  `two_opt D fuel r = none` means the loop has not reached its fixed
  point within `fuel` sweeps.
-/

/-- Stop record (`struct Stop`), `id: usize`, `lat`/`lon`/`service_minutes: f64`. -/
structure Stop where
  id : Nat
  name : String
  lat : ℚ
  lon : ℚ
  service_minutes : ℚ
deriving DecidableEq

/-- Route record (`struct Route`): an id, an ordered stop list and an optional depot. -/
structure Route where
  id : Nat
  stops : List Stop
  depot : Option Stop
deriving DecidableEq

/-- Manager record (`struct RouteManager`): an ordered collection of routes. -/
structure RouteManager where
  routes : List Route
deriving DecidableEq

/-- Distance-function parameter standing for `haversine_meters`:
same argument order `(a_lat, a_lon, b_lat, b_lon)` as the source. -/
abbrev DistFn (α : Type) := ℚ → ℚ → ℚ → ℚ → α

variable {α : Type} [LinearOrderedField α]

/-- Distance between two stops, as every call site in the source writes it:
`haversine_meters(p.lat, p.lon, q.lat, q.lon)`. -/
def sdist (D : DistFn α) (p q : Stop) : α := D p.lat p.lon q.lat q.lon

/-- Accumulation loop of `total_distance_meters`: walks the stop list keeping
`prev_opt` (initially the depot, possibly absent), adding a leg from the
previous point to each stop. -/
def distLoop (D : DistFn α) : Option Stop → List Stop → α
  | _, [] => 0
  | prevOpt, s :: rest =>
    (match prevOpt with
     | some prev => sdist D prev s
     | none => 0) + distLoop D (some s) rest

/-- Translation of `Route::total_distance_meters`: the accumulation loop plus,
when a depot exists and the route is nonempty, the return leg from the last
stop back to the depot. -/
def total_distance_meters (D : DistFn α) (r : Route) : α :=
  distLoop D r.depot r.stops +
    match r.depot, r.stops.getLast? with
    | some depot, some last => sdist D last depot
    | _, _ => 0

/-- Translation of `meters_to_minutes`: `none` models the `f64::INFINITY`
sentinel returned when `avg_kmph <= 0.0`; otherwise
`some ((meters / 1000 / avg_kmph) * 60)`. The function is total: no failure
is raised on non-positive speed. -/
def meters_to_minutes (meters avg_kmph : ℚ) : Option ℚ :=
  if avg_kmph ≤ 0 then none
  else some (meters / 1000 / avg_kmph * 60)

/-- Sum of distances over consecutive stop pairs of a list. Written from the
words of the spec (§4.3) and reused as the path-sum abstraction in proofs. -/
def pathSum (D : DistFn α) : List Stop → α
  | [] => 0
  | [_] => 0
  | a :: b :: rest => sdist D a b + pathSum D (b :: rest)

/-- Modelled from the spec (§4.3 wording, claim C5): with a depot the closed
tour `depot → stops… → depot`; without a depot the open-path sum over
consecutive stops only. -/
def specTotalDistance (D : DistFn α) (r : Route) : α :=
  match r.depot with
  | none => pathSum D r.stops
  | some depot =>
    match r.stops with
    | [] => 0
    | s0 :: rest =>
      sdist D depot s0 + pathSum D (s0 :: rest) +
        sdist D ((s0 :: rest).getLast (List.cons_ne_nil s0 rest)) depot

/-! ## RouteManager operations -/

/-- Helper for `RouteManager::add_stop_to_route`: push the stop onto the first
route whose id matches; when no route matches the list is unchanged (the
source prints "Route not found" and drops the stop). -/
def pushToFirst : List Route → Nat → Stop → List Route
  | [], _, _ => []
  | r :: rest, route_id, stop =>
    if r.id = route_id then { r with stops := r.stops ++ [stop] } :: rest
    else r :: pushToFirst rest route_id stop

/-- Translation of `RouteManager::add_stop_to_route`. -/
def add_stop_to_route (m : RouteManager) (route_id : Nat) (stop : Stop) : RouteManager :=
  { routes := pushToFirst m.routes route_id stop }

/-- Helper for `RouteManager::remove_stop_by_id`: scan routes in order,
remove the first stop with the given id from the first route that holds one,
returning the removed stop and the updated route list. -/
def removeFromRoutes : List Route → Nat → Option Stop × List Route
  | [], _ => (none, [])
  | r :: rest, stop_id =>
    match r.stops.findIdx? (fun s => s.id = stop_id) with
    | some pos => (r.stops[pos]?, { r with stops := r.stops.eraseIdx pos } :: rest)
    | none =>
      let res := removeFromRoutes rest stop_id
      (res.1, r :: res.2)

/-- Translation of `RouteManager::remove_stop_by_id`. -/
def remove_stop_by_id (m : RouteManager) (stop_id : Nat) : Option Stop × RouteManager :=
  let res := removeFromRoutes m.routes stop_id
  (res.1, { routes := res.2 })

/-- Translation of `RouteManager::reassign_stop`: remove by stop id, and if a
stop was removed, add it to the target route (silently dropping it when the
target id does not exist, per `add_stop_to_route`), returning `true`;
otherwise return `false`. -/
def reassign_stop (m : RouteManager) (stop_id target_route_id : Nat) :
    Bool × RouteManager :=
  match remove_stop_by_id m stop_id with
  | (some stop, m1) => (true, add_stop_to_route m1 target_route_id stop)
  | (none, m1) => (false, m1)

/-! ## Nearest-neighbor construction -/

/-- Inner scan of `build_nearest_neighbor`: index of the remaining stop
nearest to `current`. `best` is `none` for the initial `f64::INFINITY`
(every finite distance beats it); ties keep the earlier index because the
comparison `d < best_dist` is strict. `i` is the index of the list head,
`bestIdx` the best index so far (initially `0`). -/
def selectIdxAux (D : DistFn α) (current : Stop) :
    List Stop → Nat → Nat → Option α → Nat
  | [], _, bestIdx, _ => bestIdx
  | s :: rest, i, bestIdx, best =>
    let d := sdist D current s
    match best with
    | none => selectIdxAux D current rest (i + 1) i (some d)
    | some bd =>
      if d < bd then selectIdxAux D current rest (i + 1) i (some d)
      else selectIdxAux D current rest (i + 1) bestIdx (some bd)

/-- Index of the nearest remaining stop, as the source's scan computes it. -/
def selectIdx (D : DistFn α) (current : Stop) (remaining : List Stop) : Nat :=
  selectIdxAux D current remaining 0 0 none

/-- Greedy walk of `build_nearest_neighbor`: repeatedly move the nearest
remaining stop into the output. Structural recursion on a fuel argument
(instantiated with `remaining.length`, an exact bound since each round
removes one element) keeps the definition kernel-computable; the `getD`
default is never consulted because the selected index is in range. -/
def nnLoop (D : DistFn α) : Nat → Stop → List Stop → List Stop
  | 0, _, _ => []
  | fuel + 1, current, remaining =>
    match remaining with
    | [] => []
    | _ :: _ =>
      let idx := selectIdx D current remaining
      let next := remaining.getD idx current
      next :: nnLoop D fuel next (remaining.eraseIdx idx)

/-- Translation of `Route::build_nearest_neighbor`: empty routes are left
unchanged; with a depot the walk starts there and visits every stop;
without one the first stop is removed and used as the start (the source
never pushes it back, so it is absent from the rebuilt `stops`). -/
def build_nearest_neighbor (D : DistFn α) (r : Route) : Route :=
  if r.stops.isEmpty then r
  else
    match r.depot with
    | some depot => { r with stops := nnLoop D r.stops.length depot r.stops }
    | none =>
      match r.stops with
      | [] => r
      | s0 :: rest => { r with stops := nnLoop D rest.length s0 rest }

/-! ## 2-opt local search -/

/-- Translation of the `get_point` closure in `two_opt_swap_delta`:
an in-range index yields that stop's coordinates; a missing index (`none`,
for the code's `None` / out-of-range `isize`) falls back to the depot if
present, else to the last stop, else to `(0, 0)`. -/
def getPoint (r : Route) (idxOpt : Option Nat) : ℚ × ℚ :=
  match idxOpt with
  | some idx =>
    match r.stops[idx]? with
    | some s => (s.lat, s.lon)
    | none => getPointFallback r
  | none => getPointFallback r
where
  getPointFallback (r : Route) : ℚ × ℚ :=
    match r.depot with
    | some depot => (depot.lat, depot.lon)
    | none =>
      match r.stops.getLast? with
      | some s => (s.lat, s.lon)
      | none => (0, 0)

/-- Translation of `Route::two_opt_swap_delta`: anchors `A = stops[i-1]`
(or missing when `i = 0`), `B = stops[i]`, `C = stops[k]`, `D = stops[k+1]`
(or missing when `k+1 ≥ n`); result is `added - removed`. -/
def two_opt_swap_delta (D : DistFn α) (r : Route) (i k : Nat) : α :=
  let n := r.stops.length
  let pa := getPoint r (if i = 0 then none else some (i - 1))
  let pb := getPoint r (some i)
  let pc := getPoint r (some k)
  let pd := getPoint r (if k + 1 ≥ n then none else some (k + 1))
  let removed := D pa.1 pa.2 pb.1 pb.2 + D pc.1 pc.2 pd.1 pd.2
  let added := D pa.1 pa.2 pc.1 pc.2 + D pb.1 pb.2 pd.1 pd.2
  added - removed

/-- Translation of `Route::do_two_opt_swap`: reverse `stops[i..=k]` in place. -/
def do_two_opt_swap (r : Route) (i k : Nat) : Route :=
  { r with stops :=
      r.stops.take i ++ ((r.stops.drop i).take (k + 1 - i)).reverse ++
        r.stops.drop (k + 1) }

/-- Index pairs `(i, k)` visited by one sweep of `two_opt`, in source order:
`i` in `0..n-2` and `k` in `i+2..n`. -/
def sweepPairs (n : Nat) : List (Nat × Nat) :=
  (List.range (n - 2)).flatMap fun i =>
    (List.range' (i + 2) (n - (i + 2))).map fun k => (i, k)

/-- Body of one `(i, k)` iteration of a sweep: skip the pair reconnecting the
two open ends when there is no depot (`k = n-1`, `i = 0`); otherwise accept
the reversal exactly when `delta < -1e-6`, setting the improvement flag. -/
def sweepStep (D : DistFn α) (n : Nat) : Route × Bool → Nat × Nat → Route × Bool :=
  fun state ik =>
    let i := ik.1
    let k := ik.2
    if k = n - 1 ∧ i = 0 ∧ state.1.depot = none then state
    else if two_opt_swap_delta D state.1 i k < -(1 / 1000000) then
      (do_two_opt_swap state.1 i k, true)
    else state

/-- One full `(i, k)` sweep of `two_opt` over the route, threading the route
and the `improved` flag; `n` is the stop count read once at entry (reversals
preserve it). -/
def sweep (D : DistFn α) (r : Route) : Route × Bool :=
  (sweepPairs r.stops.length).foldl (sweepStep D r.stops.length) (r, false)

/-- The `while improved` loop of `two_opt`, with fuel: run sweeps until one
reports no improvement (`some` of the final route), or give up (`none`) when
the fuel is exhausted before the fixed point. -/
def twoOptLoop (D : DistFn α) : Nat → Route → Option Route
  | 0, _ => none
  | fuel + 1, r =>
    match sweep D r with
    | (r1, true) => twoOptLoop D fuel r1
    | (r1, false) => some r1

/-- Translation of `Route::two_opt`: no-op below 3 stops, else the sweep loop. -/
def two_opt (D : DistFn α) (fuel : Nat) (r : Route) : Option Route :=
  if r.stops.length < 3 then some r else twoOptLoop D fuel r

/-- Translation of `Route::optimize`: no-op on an empty route, else
nearest-neighbor construction followed by 2-opt (the source's copy of
`stops` to a temporary and back is the identity and is omitted). -/
def optimize (D : DistFn α) (fuel : Nat) (r : Route) : Option Route :=
  if r.stops.isEmpty then some r
  else two_opt D fuel (build_nearest_neighbor D r)

/-! ## Concrete instances

All concrete stops below lie on the equator (`lat = 0`), so the haversine
distance between them is exactly `6371000 * π / 180` meters per degree of
longitudinal arc, wrapped around the circle (theorem
`haversine_meters_equator` below). `Dcirc` is that circle distance in
degree units, `DlineQ` its restriction for points within 180° of each
other. Both are exactly computable, and since every distance delta is a
whole number of degrees while a degree is about 111 km, each comparison
against the `-1e-6` meter threshold decides the same way as under the real
haversine distance. -/

/-- Circle distance in degrees between equatorial points given by longitude,
for longitudes within `[0, 360]`. -/
def Dcirc : DistFn ℚ := fun _ alon _ blon => min |alon - blon| (360 - |alon - blon|)

/-- Line distance in degrees between equatorial points within 180° of each
other (where `Dcirc` reduces to it). -/
def DlineQ : DistFn ℚ := fun _ alon _ blon => |alon - blon|

/-- Equatorial stop at a given longitude. -/
def mkStop (i : Nat) (lon : ℚ) : Stop := ⟨i, "P", 0, lon, 0⟩

/-- Depot-less route whose nearest-neighbor output admits a 2-opt run that
worsens the tour (claim C4). -/
def exR4 : Route :=
  ⟨4, [mkStop 1 261, mkStop 2 325, mkStop 3 115, mkStop 4 224,
       mkStop 5 302, mkStop 6 259, mkStop 7 112], none⟩

/-- Depot-less route admitting an accepted 2-opt swap that lengthens the
path (claim C3): stops at longitudes `10, 5, 1, 2, 0`. -/
def exR3 : Route := ⟨3, [mkStop 1 10, mkStop 2 5, mkStop 3 1, mkStop 4 2, mkStop 5 0], none⟩

/-- Two-stop depot-less route for the `optimize` idempotence claim (C6). -/
def exR6 : Route := ⟨6, [mkStop 1 0, mkStop 2 1], none⟩

/-- One-stop depot-less route for the nearest-neighbor permutation claim (C2). -/
def exR2 : Route := ⟨2, [mkStop 1 3], none⟩

/-- Manager holding a single route (id 1) containing the single stop id 5. -/
def exMgr : RouteManager := ⟨[⟨1, [mkStop 5 0], none⟩]⟩

/-- Manager with routes 1 and 2 where stop id 5 lives in route 1 and no
route has id 99. -/
def exMgr9 : RouteManager := ⟨[⟨1, [mkStop 5 20], none⟩, ⟨2, [mkStop 6 30], none⟩]⟩

/-- Connecting edge between two list fragments: the distance from the last
stop of the first to the head of the second, `0` when either is empty. -/
def joint (D : DistFn α) (l1 l2 : List Stop) : α :=
  match l1.getLast?, l2.head? with
  | some a, some b => sdist D a b
  | _, _ => 0

/-- Nearest-neighbor output of `exR4`, written out (stop ids ordered by the
greedy walk). -/
def exR4nn : Route :=
  ⟨4, [mkStop 6 259, mkStop 4 224, mkStop 5 302, mkStop 2 325,
       mkStop 7 112, mkStop 3 115], none⟩

/-- The 2-opt fixed point reached from `exR4nn`. -/
def exR4opt : Route :=
  ⟨4, [mkStop 4 224, mkStop 6 259, mkStop 2 325, mkStop 5 302,
       mkStop 7 112, mkStop 3 115], none⟩

/-- Route with a depot for the termination witness. -/
def exR7 : Route := ⟨7, [mkStop 1 2, mkStop 2 9, mkStop 3 5], some (mkStop 0 0)⟩

/-! ## The haversine distance over the reals, and the equatorial bridge

The floating-point `haversine_meters` of the source is modelled over `ℝ`
(so rounding is idealized away; concrete branch decisions of the algorithms
are insensitive to this because every comparison below is decided by whole
degrees of arc, about 111 km each, against the `1e-6` meter tolerance).
Note `Real.arcsin` is total, so the missing clamp of the source (claim C7)
is invisible at this level: in exact arithmetic the argument provably stays
inside `[0, 1]`. -/

/-- Translation of `haversine_meters`: `to_rad` is inlined as
`deg * π / 180`; the argument of `asin` is `sqrt` of
`sin_dlat * sin_dlat + cos alat * cos blat * sin_dlon * sin_dlon`,
with no clamping, exactly as in the source. -/
noncomputable def haversine_meters (a_lat a_lon b_lat b_lon : ℝ) : ℝ :=
  6371000 * (2 * Real.arcsin (Real.sqrt (
    Real.sin ((b_lat * Real.pi / 180 - a_lat * Real.pi / 180) / 2) *
      Real.sin ((b_lat * Real.pi / 180 - a_lat * Real.pi / 180) / 2) +
    Real.cos (a_lat * Real.pi / 180) * Real.cos (b_lat * Real.pi / 180) *
      Real.sin ((b_lon * Real.pi / 180 - a_lon * Real.pi / 180) / 2) *
      Real.sin ((b_lon * Real.pi / 180 - a_lon * Real.pi / 180) / 2))))

/-- The real haversine as the distance function of the route operations. -/
noncomputable def havD : DistFn ℝ := fun a_lat a_lon b_lat b_lon =>
  haversine_meters a_lat a_lon b_lat b_lon

/-- The `a` value of the source's haversine (the quantity whose square root
is passed to `asin`). -/
noncomputable def haversineA (a_lat a_lon b_lat b_lon : ℝ) : ℝ :=
  Real.sin ((b_lat * Real.pi / 180 - a_lat * Real.pi / 180) / 2) *
    Real.sin ((b_lat * Real.pi / 180 - a_lat * Real.pi / 180) / 2) +
  Real.cos (a_lat * Real.pi / 180) * Real.cos (b_lat * Real.pi / 180) *
    Real.sin ((b_lon * Real.pi / 180 - a_lon * Real.pi / 180) / 2) *
    Real.sin ((b_lon * Real.pi / 180 - a_lon * Real.pi / 180) / 2)

/-- Equatorial grid point: latitude `0` and a whole-degree longitude within
`[0, 360]` — the coordinate domain on which the rational circle metric
`Dcirc` coincides with the real haversine up to the fixed factor
`6371000π/180` (theorem `havD_eq_circ`), with whole-degree distance values. -/
def GoodPt (p : ℚ × ℚ) : Prop :=
  p.1 = 0 ∧ 0 ≤ p.2 ∧ p.2 ≤ 360 ∧ ∃ n : ℤ, p.2 = (n : ℚ)

/-- A route whose stops and depot (if any) are all equatorial grid points. -/
def GoodRoute (r : Route) : Prop :=
  (∀ s ∈ r.stops, GoodPt (s.lat, s.lon)) ∧
    ∀ dp, r.depot = some dp → GoodPt (dp.lat, dp.lon)

/-! ## Claim theorems and supporting lemmas -/

/-- Claim C1: reassigning a stop to a non-existent route id must leave the
stop in its original route. The code instead removes it first and
`add_stop_to_route` silently drops it: starting from a manager whose only
route (id 1) holds stop 5, `reassign_stop(5, 99)` leaves every route empty —
the stop is lost, contradicting the claim. -/
theorem reassign_stop_nonexistent_target_loses_stop :
    (reassign_stop exMgr 5 99).2 = ⟨[⟨1, [], none⟩]⟩ ∧
      exMgr.routes.map Route.stops = [[mkStop 5 0]] := by decide

/-- Claim C9: on a state where stop 5 exists in some route and no route has
id 99, `reassign_stop(5, 99)` returns `true` — the flag only reports that
the removal step succeeded, not that the stop reached the target. -/
theorem reassign_stop_returns_true_without_target :
    (reassign_stop exMgr9 5 99).1 = true ∧
      exMgr9.routes.all (fun r => decide (r.id ≠ 99)) = true := by decide

/-- Claim C2: `build_nearest_neighbor` is claimed to permute the stops, the
start stop still appearing in the output. On a depot-less route with one
stop the code pops that stop as the start and never pushes it, leaving the
route empty: the output is not a permutation of the input. (Stated for the
real haversine distance itself; this run makes no distance comparison, so
it reduces definitionally.) -/
theorem build_nearest_neighbor_drops_first_stop_without_depot :
    (build_nearest_neighbor havD exR2).stops = [] ∧ exR2.stops = [mkStop 1 3] :=
  ⟨rfl, rfl⟩

/-- Claim C6: running `optimize` a second time on a just-optimized route is
claimed to keep the stop order. On the depot-less two-stop route `exR6`,
under the real haversine distance, the first `optimize` yields the single
stop id 2 (stop 1 is lost as the nearest-neighbor start); the second drops
stop 2 as well, yielding the empty order — the order changes. -/
theorem optimize_twice_changes_stop_order :
    optimize havD 5 exR6 = some ⟨6, [mkStop 2 1], none⟩ ∧
      (optimize havD 5 exR6).bind (optimize havD 5) = some ⟨6, [], none⟩ :=
  ⟨rfl, rfl⟩

/-! ## Claim C5: the total-distance formula -/

/-- Walking the accumulation loop with a previous point is the path sum of
the list extended with that point. -/
theorem distLoop_some (D : DistFn α) (p : Stop) (l : List Stop) :
    distLoop D (some p) l = pathSum D (p :: l) := by
  induction l generalizing p with
  | nil => simp [distLoop, pathSum]
  | cons s rest ih => simp [distLoop, pathSum, ih]

/-- Walking the accumulation loop with no previous point is the plain path sum. -/
theorem distLoop_none (D : DistFn α) (l : List Stop) :
    distLoop D none l = pathSum D l := by
  cases l with
  | nil => rfl
  | cons s rest => simp [distLoop, distLoop_some, pathSum]

/-- Claim C5: `total_distance_meters` equals the spec formula — with a depot
the closed tour `depot → stops… → depot`, without one the open-path sum over
consecutive stops, which is `0` for a depot-less route with at most one stop. -/
theorem total_distance_meters_eq_spec (D : DistFn α) (r : Route) :
    total_distance_meters D r = specTotalDistance D r ∧
      (r.depot = none → r.stops.length ≤ 1 → total_distance_meters D r = 0) := by
  obtain ⟨id, stops, depot⟩ := r
  constructor
  · cases depot with
    | none => simp [total_distance_meters, specTotalDistance, distLoop_none]
    | some dep =>
      cases stops with
      | nil => simp [total_distance_meters, specTotalDistance, distLoop]
      | cons s0 rest =>
        have hlast : (s0 :: rest).getLast? =
            some ((s0 :: rest).getLast (List.cons_ne_nil s0 rest)) :=
          List.getLast?_eq_getLast _ _
        simp only [total_distance_meters, specTotalDistance, distLoop_some, hlast]
        simp [pathSum, add_assoc]
  · intro hdep hlen
    subst hdep
    match stops, hlen with
    | [], _ => simp [total_distance_meters, distLoop]
    | [s], _ => simp [total_distance_meters, distLoop, sdist]

/-- Witness for C5 at concrete inputs: the spec formula on `exR3` and the
zero value on the one-stop depot-less route `exR2`. -/
theorem total_distance_meters_eq_spec_witness :
    total_distance_meters DlineQ exR3 = specTotalDistance DlineQ exR3 ∧
      total_distance_meters DlineQ exR2 = 0 :=
  ⟨(total_distance_meters_eq_spec DlineQ exR3).1,
   (total_distance_meters_eq_spec DlineQ exR2).2 rfl (by decide)⟩

/-! ## Claim C8: travel-time conversion -/

/-- Claim C8: for positive average speed the conversion is
`(meters/1000 / avg) * 60`; for non-positive speed the infinity sentinel
(`none`) is returned, and the function is total — no failure is raised. -/
theorem meters_to_minutes_spec (meters avg_kmph : ℚ) :
    (0 < avg_kmph →
      meters_to_minutes meters avg_kmph = some (meters / 1000 / avg_kmph * 60)) ∧
      (avg_kmph ≤ 0 → meters_to_minutes meters avg_kmph = none) := by
  constructor
  · intro h
    simp [meters_to_minutes, not_le.2 h]
  · intro h
    simp [meters_to_minutes, h]

/-- Witness for C8: a positive-speed and a zero-speed evaluation. -/
theorem meters_to_minutes_spec_witness :
    meters_to_minutes 5000 50 = some 6 ∧ meters_to_minutes 3 0 = none :=
  ⟨by rw [(meters_to_minutes_spec 5000 50).1 (by norm_num)]; norm_num,
   (meters_to_minutes_spec 3 0).2 le_rfl⟩

/-! ## Claim C10: `two_opt` preserves the stop multiset -/

/-- A 2-opt segment reversal permutes the stop list. -/
theorem do_two_opt_swap_perm (r : Route) (i k : Nat) (hik : i ≤ k) :
    (do_two_opt_swap r i k).stops.Perm r.stops := by
  show (r.stops.take i ++ ((r.stops.drop i).take (k + 1 - i)).reverse ++
      r.stops.drop (k + 1)).Perm r.stops
  have h1 : (r.stops.drop i).drop (k + 1 - i) = r.stops.drop (k + 1) := by
    rw [List.drop_drop]
    congr 1
    omega
  have h2 : r.stops =
      r.stops.take i ++ ((r.stops.drop i).take (k + 1 - i) ++ r.stops.drop (k + 1)) := by
    rw [← h1, List.take_append_drop, List.take_append_drop]
  rw [List.append_assoc]
  conv_rhs => rw [h2]
  exact List.Perm.append_left _ (List.Perm.append_right _ (List.reverse_perm _))

/-- Any pair produced for a sweep satisfies `i + 2 ≤ k < n`. -/
theorem sweepPairs_mem {n i k : Nat} (h : (i, k) ∈ sweepPairs n) :
    i + 2 ≤ k ∧ k < n := by
  unfold sweepPairs at h
  simp only [List.mem_flatMap, List.mem_map, List.mem_range, List.mem_range'_1,
    Prod.mk.injEq] at h
  obtain ⟨i0, hi0, k0, hk0, hik, hkk⟩ := h
  subst hik
  subst hkk
  omega

/-- Threading an invariant through a left fold. -/
theorem foldl_preserve {β γ : Type _} {P : γ → Prop} {f : γ → β → γ} :
    ∀ (l : List β) (init : γ), P init →
      (∀ s b, b ∈ l → P s → P (f s b)) → P (l.foldl f init)
  | [], _, h0, _ => h0
  | b :: rest, init, h0, hf =>
    foldl_preserve rest (f init b) (hf init b (List.mem_cons_self b rest) h0)
      (fun s b2 hb hs => hf s b2 (List.mem_cons_of_mem b hb) hs)

/-- One sweep permutes the stops and keeps the depot. -/
theorem sweep_perm (D : DistFn α) (r : Route) :
    (sweep D r).1.stops.Perm r.stops ∧ (sweep D r).1.depot = r.depot := by
  unfold sweep
  refine @foldl_preserve (Nat × Nat) (Route × Bool)
    (fun s => s.1.stops.Perm r.stops ∧ s.1.depot = r.depot)
    (sweepStep D r.stops.length) (sweepPairs r.stops.length) (r, false)
    ⟨List.Perm.refl _, rfl⟩ ?_
  rintro ⟨r1, flag⟩ ⟨i, k⟩ hmem ⟨hperm, hdep⟩
  have hik := sweepPairs_mem hmem
  unfold sweepStep
  dsimp only
  split
  · exact ⟨hperm, hdep⟩
  · split
    · exact ⟨(do_two_opt_swap_perm r1 i k (by omega)).trans hperm, hdep⟩
    · exact ⟨hperm, hdep⟩

/-- The sweep loop, when it reaches its fixed point, permutes the stops and
keeps the depot. -/
theorem twoOptLoop_perm (D : DistFn α) :
    ∀ (fuel : Nat) (r r2 : Route), twoOptLoop D fuel r = some r2 →
      r2.stops.Perm r.stops ∧ r2.depot = r.depot := by
  intro fuel
  induction fuel with
  | zero => intro r r2 h; exact absurd h (by simp [twoOptLoop])
  | succ f ih =>
    intro r r2 h
    unfold twoOptLoop at h
    obtain ⟨hperm, hdep⟩ := sweep_perm D r
    cases hs : sweep D r with
    | mk r1 flag =>
      rw [hs] at h hperm hdep
      cases flag with
      | true =>
        obtain ⟨hp2, hd2⟩ := ih r1 r2 h
        exact ⟨hp2.trans hperm, hd2.trans hdep⟩
      | false =>
        cases h
        exact ⟨hperm, hdep⟩

/-- Claim C10: whenever `two_opt` reaches its fixed point (any number of
sweeps), the resulting route holds exactly the same stops as before the
call — every accepted move only reverses a contiguous segment — and the
depot field is unchanged. -/
theorem two_opt_preserves_stop_multiset (D : DistFn α) (fuel : Nat) (r r2 : Route)
    (h : two_opt D fuel r = some r2) :
    r2.stops.Perm r.stops ∧ r2.depot = r.depot := by
  unfold two_opt at h
  split at h
  · cases h
    exact ⟨List.Perm.refl _, rfl⟩
  · exact twoOptLoop_perm D fuel r r2 h


unseal Rat.add Rat.sub Rat.mul Rat.inv in
set_option maxRecDepth 100000 in
/-- Witness for C10: a concrete six-stop `two_opt` run (three accepted
reversals) whose output is a permutation of its input with the same depot. -/
theorem two_opt_preserves_stop_multiset_witness :
    two_opt Dcirc 10 exR4nn = some exR4opt ∧
      exR4opt.stops.Perm exR4nn.stops ∧ exR4opt.depot = exR4nn.depot :=
  have h : two_opt Dcirc 10 exR4nn = some exR4opt := by decide
  ⟨h, two_opt_preserves_stop_multiset Dcirc 10 exR4nn exR4opt h⟩

/-! ## Claim C3: exactness of the swap delta with a depot, and termination -/


theorem pathSum_append (D : DistFn α) (l1 l2 : List Stop) :
    pathSum D (l1 ++ l2) = pathSum D l1 + joint D l1 l2 + pathSum D l2 := by
  induction l1 with
  | nil => simp [pathSum, joint]
  | cons a t ih =>
    cases t with
    | nil =>
      cases l2 with
      | nil => simp [pathSum, joint]
      | cons b rest => simp [pathSum, joint]
    | cons c t2 =>
      have hj : joint D (a :: c :: t2) l2 = joint D (c :: t2) l2 := by
        simp [joint, List.getLast?]
      calc pathSum D ((a :: c :: t2) ++ l2)
          = sdist D a c + pathSum D ((c :: t2) ++ l2) := rfl
        _ = sdist D a c + (pathSum D (c :: t2) + joint D (c :: t2) l2 + pathSum D l2) := by
            rw [ih]
        _ = pathSum D (a :: c :: t2) + joint D (a :: c :: t2) l2 + pathSum D l2 := by
            rw [hj]; show _ = sdist D a c + pathSum D (c :: t2) + _ + _; ring

/-- With a symmetric distance the path sum of a reversed list is unchanged. -/
theorem pathSum_reverse (D : DistFn α) (hsym : ∀ a b c d, D a b c d = D c d a b) :
    ∀ l : List Stop, pathSum D l.reverse = pathSum D l := by
  intro l
  induction l with
  | nil => rfl
  | cons a t ih =>
    rw [List.reverse_cons, pathSum_append]
    cases t with
    | nil => simp [pathSum, joint]
    | cons b t2 =>
      have hj : joint D ((b :: t2).reverse) [a] = sdist D a b := by
        have hg : ((b :: t2).reverse).getLast? = some b := by
          rw [List.getLast?_reverse]; rfl
        simp [joint, hg, sdist, hsym b.lat b.lon a.lat a.lon]
      rw [ih, hj]
      show _ = sdist D a b + pathSum D (b :: t2)
      simp [pathSum]
      ring

/-- Triple-append split of a path sum around a nonempty middle segment. -/
theorem pathSum_append3 (D : DistFn α) (A S B : List Stop) (hS : S ≠ []) :
    pathSum D (A ++ S ++ B) =
      pathSum D A + joint D A S + pathSum D S + joint D S B + pathSum D B := by
  rw [List.append_assoc, pathSum_append D A (S ++ B), pathSum_append D S B]
  have hj : joint D A (S ++ B) = joint D A S := by
    unfold joint
    rw [List.head?_append]
    cases hS2 : S.head? with
    | none => exact absurd (List.head?_eq_none_iff.mp hS2) hS
    | some b => rfl
  rw [hj]
  ring

/-- With a depot and a nonempty stop list, `total_distance_meters` is the
path sum of the closed tour `depot :: stops ++ [depot]`. -/
theorem total_depot_pathSum (D : DistFn α) (r : Route) (dep : Stop)
    (hdep : r.depot = some dep) (hne : r.stops ≠ []) :
    total_distance_meters D r = pathSum D (dep :: r.stops ++ [dep]) := by
  obtain ⟨last, hlast⟩ : ∃ s, r.stops.getLast? = some s := by
    cases h : r.stops.getLast? with
    | none => exact absurd (List.getLast?_eq_none_iff.mp h) hne
    | some s => exact ⟨s, rfl⟩
  have h1 : pathSum D ((dep :: r.stops) ++ [dep]) =
      pathSum D (dep :: r.stops) + joint D (dep :: r.stops) [dep] + pathSum D [dep] := by
    rw [pathSum_append]
  have h2 : (dep :: r.stops).getLast? = some last := by
    rw [show dep :: r.stops = [dep] ++ r.stops from rfl, List.getLast?_append, hlast]
    rfl
  have h3 : joint D (dep :: r.stops) [dep] = sdist D last dep := by
    simp [joint, h2]
  rw [show dep :: r.stops ++ [dep] = (dep :: r.stops) ++ [dep] from rfl, h1, h3]
  unfold total_distance_meters
  rw [hdep, hlast, distLoop_some]
  show _ = pathSum D (dep :: r.stops) + sdist D last dep + 0
  ring

/-- With non-negative distances every total distance is non-negative. -/
theorem total_nonneg (D : DistFn α) (hnn : ∀ a b c d, 0 ≤ D a b c d) (r : Route) :
    0 ≤ total_distance_meters D r := by
  have h1 : ∀ (p : Option Stop) (l : List Stop), 0 ≤ distLoop D p l := by
    intro p l
    induction l generalizing p with
    | nil => exact le_refl 0
    | cons s rest ih =>
      refine add_nonneg ?_ (ih (some s))
      cases p with
      | none => exact le_refl 0
      | some prev => exact hnn _ _ _ _
  refine add_nonneg (h1 _ _) ?_
  split
  · exact hnn _ _ _ _
  · exact le_refl 0

/-- With a depot present, the value computed by `two_opt_swap_delta` is
exactly the change of `total_distance_meters` caused by `do_two_opt_swap`
(the missing-anchor fallbacks resolve to the depot, which is the true
neighbor in the closed tour). -/
theorem swap_delta_exact (D : DistFn α) (hsym : ∀ a b c d, D a b c d = D c d a b)
    (r : Route) (dep : Stop) (hdep : r.depot = some dep) (i k : Nat)
    (hik : i + 2 ≤ k) (hk : k < r.stops.length) :
    total_distance_meters D (do_two_opt_swap r i k) =
      total_distance_meters D r + two_opt_swap_delta D r i k := by
  have hin : i < r.stops.length := by omega
  have hseglen : ((r.stops.drop i).take (k + 1 - i)).length = k + 1 - i := by
    rw [List.length_take, List.length_drop]
    omega
  have hsegne : (r.stops.drop i).take (k + 1 - i) ≠ [] := by
    intro h
    rw [h] at hseglen
    simp at hseglen
    omega
  have hsegrne : ((r.stops.drop i).take (k + 1 - i)).reverse ≠ [] := by
    simpa using hsegne
  -- the four anchor stops
  obtain ⟨bS, hbGet⟩ : ∃ s, r.stops[i]? = some s :=
    ⟨r.stops.get ⟨i, hin⟩, List.getElem?_eq_getElem hin⟩
  obtain ⟨cS, hcGet⟩ : ∃ s, r.stops[k]? = some s :=
    ⟨r.stops.get ⟨k, hk⟩, List.getElem?_eq_getElem hk⟩
  have hbHead : ((r.stops.drop i).take (k + 1 - i)).head? = some bS := by
    rw [List.head?_eq_getElem?, List.getElem?_take_of_lt (by omega : 0 < k + 1 - i),
      List.getElem?_drop]
    simpa using hbGet
  have hcLast : ((r.stops.drop i).take (k + 1 - i)).getLast? = some cS := by
    rw [List.getLast?_eq_getElem?, hseglen,
      List.getElem?_take_of_lt (by omega : k + 1 - i - 1 < k + 1 - i),
      List.getElem?_drop, show i + (k + 1 - i - 1) = k from by omega]
    exact hcGet
  have hbPoint : getPoint r (some i) = (bS.lat, bS.lon) := by
    simp [getPoint, hbGet]
  have hcPoint : getPoint r (some k) = (cS.lat, cS.lon) := by
    simp [getPoint, hcGet]
  -- anchor A: depot when i = 0, else stop i-1
  obtain ⟨aS, haLast, haPoint⟩ :
      ∃ s, (dep :: r.stops.take i).getLast? = some s ∧
        getPoint r (if i = 0 then none else some (i - 1)) = (s.lat, s.lon) := by
    by_cases hi : i = 0
    · refine ⟨dep, ?_, ?_⟩
      · subst hi; rfl
      · rw [if_pos hi]
        simp [getPoint, getPoint.getPointFallback, hdep]
    · have hi1 : i - 1 < r.stops.length := by omega
      obtain ⟨s, hsGet⟩ : ∃ s, r.stops[i - 1]? = some s :=
        ⟨r.stops.get ⟨i - 1, hi1⟩, List.getElem?_eq_getElem hi1⟩
      refine ⟨s, ?_, ?_⟩
      · have hpre : (r.stops.take i).getLast? = some s := by
          rw [List.getLast?_eq_getElem?, List.length_take,
            show min i r.stops.length = i from by omega,
            List.getElem?_take_of_lt (by omega : i - 1 < i)]
          exact hsGet
        rw [show dep :: r.stops.take i = [dep] ++ r.stops.take i from rfl,
          List.getLast?_append, hpre]
        rfl
      · rw [if_neg hi]
        simp [getPoint, hsGet]
  -- anchor D: depot when k+1 ≥ n, else stop k+1
  obtain ⟨dS, hdHead, hdPoint⟩ :
      ∃ s, (r.stops.drop (k + 1) ++ [dep]).head? = some s ∧
        getPoint r (if k + 1 ≥ r.stops.length then none else some (k + 1)) =
          (s.lat, s.lon) := by
    by_cases hkn : k + 1 ≥ r.stops.length
    · refine ⟨dep, ?_, ?_⟩
      · rw [List.drop_eq_nil_of_le hkn]
        rfl
      · rw [if_pos hkn]
        simp [getPoint, getPoint.getPointFallback, hdep]
    · push_neg at hkn
      obtain ⟨s, hsGet⟩ : ∃ s, r.stops[k + 1]? = some s :=
        ⟨r.stops.get ⟨k + 1, hkn⟩, List.getElem?_eq_getElem hkn⟩
      refine ⟨s, ?_, ?_⟩
      · rw [List.head?_append, List.head?_eq_getElem?, List.getElem?_drop]
        simp only [Nat.add_zero, hsGet]
        rfl
      · rw [if_neg (by omega)]
        simp [getPoint, hsGet]
  -- decompose the stop list
  have hdecomp : r.stops =
      r.stops.take i ++ ((r.stops.drop i).take (k + 1 - i) ++ r.stops.drop (k + 1)) := by
    have h1 : (r.stops.drop i).drop (k + 1 - i) = r.stops.drop (k + 1) := by
      rw [List.drop_drop]
      congr 1
      omega
    rw [← h1, List.take_append_drop, List.take_append_drop]
  -- both totals as triple-append path sums
  have hswapStops : (do_two_opt_swap r i k).stops =
      r.stops.take i ++ ((r.stops.drop i).take (k + 1 - i)).reverse ++
        r.stops.drop (k + 1) := rfl
  have hswapDepot : (do_two_opt_swap r i k).depot = some dep := hdep
  have hne : r.stops ≠ [] := by
    intro h
    rw [h] at hk
    simp at hk
  have hswapne : (do_two_opt_swap r i k).stops ≠ [] := by
    rw [hswapStops]
    simp [hsegrne]
  have hold : total_distance_meters D r =
      pathSum D ((dep :: r.stops.take i) ++ (r.stops.drop i).take (k + 1 - i) ++
        (r.stops.drop (k + 1) ++ [dep])) := by
    rw [total_depot_pathSum D r dep hdep hne]
    congr 1
    conv_lhs => rw [hdecomp]
    simp [List.append_assoc]
  have hnew : total_distance_meters D (do_two_opt_swap r i k) =
      pathSum D ((dep :: r.stops.take i) ++ ((r.stops.drop i).take (k + 1 - i)).reverse ++
        (r.stops.drop (k + 1) ++ [dep])) := by
    rw [total_depot_pathSum D (do_two_opt_swap r i k) dep hswapDepot hswapne,
      hswapStops]
    congr 1
    simp [List.append_assoc]
  rw [hold, hnew, pathSum_append3 D _ _ _ hsegne, pathSum_append3 D _ _ _ hsegrne]
  -- identify the four joints
  have hjAS : joint D (dep :: r.stops.take i) ((r.stops.drop i).take (k + 1 - i)) =
      sdist D aS bS := by
    simp [joint, haLast, hbHead]
  have hjSB : joint D ((r.stops.drop i).take (k + 1 - i))
      (r.stops.drop (k + 1) ++ [dep]) = sdist D cS dS := by
    simp [joint, hcLast, hdHead]
  have hjASr : joint D (dep :: r.stops.take i)
      (((r.stops.drop i).take (k + 1 - i)).reverse) = sdist D aS cS := by
    simp [joint, haLast, List.head?_reverse, hcLast]
  have hjSrB : joint D (((r.stops.drop i).take (k + 1 - i)).reverse)
      (r.stops.drop (k + 1) ++ [dep]) = sdist D bS dS := by
    simp [joint, List.getLast?_reverse, hbHead, hdHead]
  rw [hjAS, hjSB, hjASr, hjSrB, pathSum_reverse D hsym]
  -- evaluate the delta
  have hdelta : two_opt_swap_delta D r i k =
      sdist D aS cS + sdist D bS dS - (sdist D aS bS + sdist D cS dS) := by
    simp only [two_opt_swap_delta, haPoint, hbPoint, hcPoint, hdPoint, sdist]
  rw [hdelta]
  ring

/-- A segment reversal with valid indices keeps the stop count. -/
theorem do_two_opt_swap_length (r : Route) (i k : Nat) (hik : i ≤ k) :
    (do_two_opt_swap r i k).stops.length = r.stops.length :=
  (do_two_opt_swap_perm r i k hik).length_eq

/-- With a depot, a sweep that sets no improvement flag leaves the route
unchanged, and a sweep that sets it shortens the tour by more than `1e-6`. -/
theorem sweep_decrease (D : DistFn α) (hsym : ∀ a b c d, D a b c d = D c d a b)
    (r : Route) (dep : Stop) (hdep : r.depot = some dep) :
    ((sweep D r).2 = false → (sweep D r).1 = r) ∧
      ((sweep D r).2 = true →
        total_distance_meters D (sweep D r).1 + 1 / 1000000 ≤
          total_distance_meters D r) := by
  have heps : (0 : α) < 1 / 1000000 := by norm_num
  have h := @foldl_preserve (Nat × Nat) (Route × Bool)
    (fun s => s.1.depot = some dep ∧ s.1.stops.length = r.stops.length ∧
      (s.2 = false → s.1 = r) ∧
      (s.2 = true →
        total_distance_meters D s.1 + 1 / 1000000 ≤ total_distance_meters D r))
    (sweepStep D r.stops.length) (sweepPairs r.stops.length) (r, false)
    ⟨hdep, rfl, fun _ => rfl, fun hcontra => by simp at hcontra⟩ ?_
  · exact ⟨h.2.2.1, h.2.2.2⟩
  · rintro ⟨r1, flag⟩ ⟨i, k⟩ hmem ⟨hd1, hl1, hfalse, htrue⟩
    obtain ⟨hik, hkn⟩ := sweepPairs_mem hmem
    dsimp only at hd1 hl1 hfalse htrue
    unfold sweepStep
    dsimp only
    split
    · exact ⟨hd1, hl1, hfalse, htrue⟩
    · split
      · next hacc =>
        have hk1 : k < r1.stops.length := by omega
        have hexact := swap_delta_exact D hsym r1 dep hd1 i k hik hk1
        have hr1le : total_distance_meters D r1 ≤ total_distance_meters D r := by
          cases flag with
          | false => rw [hfalse rfl]
          | true => linarith [htrue rfl]
        refine ⟨hd1, ?_, ?_, ?_⟩
        · rw [do_two_opt_swap_length r1 i k (by omega)]
          exact hl1
        · intro hcontra
          simp at hcontra
        · intro _
          rw [hexact]
          linarith
      · exact ⟨hd1, hl1, hfalse, htrue⟩

/-- Fuel bound for the sweep loop with a depot: any fuel whose product with
`1e-6` exceeds the current tour length reaches the fixed point. -/
theorem twoOptLoop_terminates (D : DistFn α)
    (hsym : ∀ a b c d, D a b c d = D c d a b)
    (hnn : ∀ a b c d, 0 ≤ D a b c d) :
    ∀ (F : Nat) (r : Route) (dep : Stop), r.depot = some dep →
      total_distance_meters D r < (F : α) * (1 / 1000000) →
      ∃ r2, twoOptLoop D F r = some r2 := by
  intro F
  induction F with
  | zero =>
    intro r dep hdep hbound
    exact absurd hbound (not_lt.mpr (by simpa using total_nonneg D hnn r))
  | succ F ih =>
    intro r dep hdep hbound
    obtain ⟨hfix, hdecr⟩ := sweep_decrease D hsym r dep hdep
    obtain ⟨hperm, hdsw⟩ := sweep_perm D r
    cases hs : sweep D r with
    | mk r1 flag =>
      rw [hs] at hfix hdecr hdsw
      cases flag with
      | false => exact ⟨r1, by unfold twoOptLoop; rw [hs]⟩
      | true =>
        have hdep1 : r1.depot = some dep := by rw [hdsw, hdep]
        have hb1 : total_distance_meters D r1 < (F : α) * (1 / 1000000) := by
          have h1 := hdecr rfl
          have hcast : ((F + 1 : Nat) : α) * (1 / 1000000) =
              (F : α) * (1 / 1000000) + 1 / 1000000 := by
            push_cast
            ring
          rw [hcast] at hbound
          linarith
        obtain ⟨r2, hr2⟩ := ih r1 dep hdep1 hb1
        exact ⟨r2, by unfold twoOptLoop; rw [hs]; exact hr2⟩

/-- Claim C3 (amended): when the route has a depot the `two_opt` sweep loop
reaches a pass with no improving swap after finitely many sweeps — each
accepted swap (`delta < -1e-6`) strictly decreases the closed-tour length,
which is bounded below — so the loop terminates. (Without a depot the
fallback anchor in `two_opt_swap_delta` breaks the strict-decrease
invariant; see the counterexample.) -/
theorem two_opt_terminates_with_depot {β : Type} [LinearOrderedField β]
    [Archimedean β] (D : DistFn β)
    (hsym : ∀ a b c d, D a b c d = D c d a b)
    (hnn : ∀ a b c d, 0 ≤ D a b c d) (r : Route) (dep : Stop)
    (hdep : r.depot = some dep) :
    (∃ fuel r2, two_opt D fuel r = some r2) ∧
      (∀ i k, i + 2 ≤ k → k < r.stops.length →
        two_opt_swap_delta D r i k < -(1 / 1000000) →
        total_distance_meters D (do_two_opt_swap r i k) <
          total_distance_meters D r) := by
  constructor
  · by_cases h3 : r.stops.length < 3
    · exact ⟨0, r, by simp [two_opt, h3]⟩
    · obtain ⟨F, hF⟩ := exists_nat_gt (total_distance_meters D r * 1000000)
      have hbound : total_distance_meters D r < (F : β) * (1 / 1000000) := by
        have h6 : (0 : β) < 1000000 := by norm_num
        rw [show (F : β) * (1 / 1000000) = F / 1000000 from by ring,
          lt_div_iff₀ h6]
        exact hF
      obtain ⟨r2, hr2⟩ := twoOptLoop_terminates D hsym hnn F r dep hdep hbound
      exact ⟨F, r2, by simpa [two_opt, h3] using hr2⟩
  · intro i k hik hk hacc
    rw [swap_delta_exact D hsym r dep hdep i k hik hk]
    have heps : (0 : β) < 1 / 1000000 := by norm_num
    linarith


/-- The haversine distance is symmetric (exactly, by oddness of `sin` under
the squared differences and commutativity of the `cos` product). -/
theorem haversine_meters_symm (p q r2 s : ℝ) :
    haversine_meters p q r2 s = haversine_meters r2 s p q := by
  unfold haversine_meters
  have h1 : (p * Real.pi / 180 - r2 * Real.pi / 180) / 2 =
      -((r2 * Real.pi / 180 - p * Real.pi / 180) / 2) := by ring
  have h2 : (q * Real.pi / 180 - s * Real.pi / 180) / 2 =
      -((s * Real.pi / 180 - q * Real.pi / 180) / 2) := by ring
  rw [h1, h2, Real.sin_neg, Real.sin_neg]
  congr 1
  congr 1
  congr 1
  congr 1
  ring

/-- The haversine distance is non-negative (`arcsin` of a non-negative
argument is non-negative). -/
theorem haversine_meters_nonneg (p q r2 s : ℝ) :
    0 ≤ haversine_meters p q r2 s := by
  unfold haversine_meters
  have h : (0 : ℝ) ≤ Real.arcsin (Real.sqrt
      (Real.sin ((r2 * Real.pi / 180 - p * Real.pi / 180) / 2) *
        Real.sin ((r2 * Real.pi / 180 - p * Real.pi / 180) / 2) +
      Real.cos (p * Real.pi / 180) * Real.cos (r2 * Real.pi / 180) *
        Real.sin ((s * Real.pi / 180 - q * Real.pi / 180) / 2) *
        Real.sin ((s * Real.pi / 180 - q * Real.pi / 180) / 2))) :=
    Real.arcsin_nonneg.mpr (Real.sqrt_nonneg _)
  linarith

/-- Witness for the amended C3 at a concrete depot route, instantiated with
the real haversine distance itself (symmetric and non-negative by the two
lemmas above). -/
theorem two_opt_terminates_with_depot_witness :
    ∃ fuel r2, two_opt havD fuel exR7 = some r2 :=
  (two_opt_terminates_with_depot havD
    (fun a b c d => haversine_meters_symm a b c d)
    (fun a b c d => haversine_meters_nonneg a b c d) exR7 (mkStop 0 0) rfl).1


/-- On the equator the haversine distance is exactly
`6371000 * π / 180` meters per degree of longitude difference (for points
within 180° of each other). -/
theorem haversine_meters_equator (x y : ℝ) (h : |x - y| ≤ 180) :
    haversine_meters 0 x 0 y = 6371000 * Real.pi / 180 * |x - y| := by
  have hpi := Real.pi_pos
  have habs : |y - x| = |x - y| := abs_sub_comm y x
  unfold haversine_meters
  have hzero : ((0 : ℝ) * Real.pi / 180 - 0 * Real.pi / 180) / 2 = 0 := by ring
  have hzero2 : (0 : ℝ) * Real.pi / 180 = 0 := by ring
  rw [hzero, hzero2, Real.sin_zero, Real.cos_zero]
  set t : ℝ := (y * Real.pi / 180 - x * Real.pi / 180) / 2 with htdef
  have ht : t = (y - x) * (Real.pi / 360) := by rw [htdef]; ring
  have htabs : |t| = |x - y| * (Real.pi / 360) := by
    rw [ht, abs_mul, abs_of_pos (show (0 : ℝ) < Real.pi / 360 by positivity), habs]
  have ht2 : |t| ≤ Real.pi / 2 := by
    rw [htabs]
    calc |x - y| * (Real.pi / 360) ≤ 180 * (Real.pi / 360) :=
          mul_le_mul_of_nonneg_right h (by positivity)
      _ = Real.pi / 2 := by ring
  have htle := abs_le.mp ht2
  have hsin : |Real.sin t| = Real.sin |t| := by
    rcases le_or_lt 0 t with h1 | h1
    · rw [abs_of_nonneg h1, abs_of_nonneg]
      exact Real.sin_nonneg_of_nonneg_of_le_pi h1 (by linarith)
    · rw [abs_of_nonpos
        (Real.sin_nonpos_of_nonnpos_of_neg_pi_le (le_of_lt h1) (by linarith)),
        abs_of_neg h1, Real.sin_neg]
  have harc : Real.arcsin (Real.sin |t|) = |t| :=
    Real.arcsin_sin (by linarith [abs_nonneg t]) ht2
  have harg : (0 : ℝ) * 0 + 1 * 1 * Real.sin t * Real.sin t = Real.sin t ^ 2 := by
    ring
  rw [harg, Real.sqrt_sq_eq_abs, hsin, harc, htabs]
  ring

/-- The bridge at rational coordinates, stated for `havD`. -/
theorem havD_equator (x y : ℚ) (h : |(x : ℝ) - (y : ℝ)| ≤ 180) :
    havD 0 x 0 y = 6371000 * Real.pi / 180 * |(x : ℝ) - (y : ℝ)| := by
  unfold havD
  rw [show ((0 : ℚ) : ℝ) = 0 from by norm_num]
  exact haversine_meters_equator _ _ h

/-- Claim C3 counterexample: on the depot-less route `exR3` (equatorial
stops at longitudes 10, 5, 1, 2, 0) the pair `(i, k) = (0, 2)` is accepted
by `two_opt` under the real haversine distance — its delta is
`-2 · (6371000π/180) < -1e-6` — yet the reversal strictly increases
`total_distance_meters` (from 12 to 19 degree-arcs): an accepted swap does
not strictly decrease the tour length, refuting the claim's stated
termination argument for depot-less routes. -/
theorem two_opt_accepted_swap_increases_length :
    two_opt_swap_delta havD exR3 0 2 < -(1 / 1000000) ∧
      total_distance_meters havD exR3 <
        total_distance_meters havD (do_two_opt_swap exR3 0 2) := by
  have hK : (106000 : ℝ) < 6371000 * Real.pi / 180 := by
    linarith [Real.pi_gt_three]
  have e1 : havD 0 0 0 10 = 6371000 * Real.pi / 180 * 10 := by
    rw [havD_equator 0 10 (by norm_num)]; norm_num
  have e2 : havD 0 1 0 2 = 6371000 * Real.pi / 180 * 1 := by
    rw [havD_equator 1 2 (by norm_num)]; norm_num
  have e3 : havD 0 0 0 1 = 6371000 * Real.pi / 180 * 1 := by
    rw [havD_equator 0 1 (by norm_num)]; norm_num
  have e4 : havD 0 10 0 2 = 6371000 * Real.pi / 180 * 8 := by
    rw [havD_equator 10 2 (by norm_num)]; norm_num
  have e5 : havD 0 10 0 5 = 6371000 * Real.pi / 180 * 5 := by
    rw [havD_equator 10 5 (by norm_num)]; norm_num
  have e6 : havD 0 5 0 1 = 6371000 * Real.pi / 180 * 4 := by
    rw [havD_equator 5 1 (by norm_num)]; norm_num
  have e7 : havD 0 2 0 0 = 6371000 * Real.pi / 180 * 2 := by
    rw [havD_equator 2 0 (by norm_num)]; norm_num
  have e8 : havD 0 1 0 5 = 6371000 * Real.pi / 180 * 4 := by
    rw [havD_equator 1 5 (by norm_num)]; norm_num
  have e9 : havD 0 5 0 10 = 6371000 * Real.pi / 180 * 5 := by
    rw [havD_equator 5 10 (by norm_num)]; norm_num
  have hd : two_opt_swap_delta havD exR3 0 2 =
      havD 0 0 0 1 + havD 0 10 0 2 - (havD 0 0 0 10 + havD 0 1 0 2) := by
    simp [two_opt_swap_delta, getPoint, getPoint.getPointFallback, exR3, mkStop]
  have hswap : do_two_opt_swap exR3 0 2 =
      ⟨3, [mkStop 3 1, mkStop 2 5, mkStop 1 10, mkStop 4 2, mkStop 5 0], none⟩ := rfl
  have ht1 : total_distance_meters havD exR3 =
      havD 0 10 0 5 + havD 0 5 0 1 + havD 0 1 0 2 + havD 0 2 0 0 := by
    simp [total_distance_meters, distLoop, sdist, exR3, mkStop]
    ring
  have ht2 : total_distance_meters havD (do_two_opt_swap exR3 0 2) =
      havD 0 1 0 5 + havD 0 5 0 10 + havD 0 10 0 2 + havD 0 2 0 0 := by
    rw [hswap]
    simp [total_distance_meters, distLoop, sdist, mkStop]
    ring
  constructor
  · rw [hd, e1, e2, e3, e4]
    linarith
  · rw [ht1, ht2, e5, e6, e2, e7, e8, e9, e4]
    linarith

/-- Wrap-around case of the equatorial formula: for points between 180° and
360° of longitude apart the haversine measures the shorter way around. -/
theorem haversine_meters_equator_wrap (x y : ℝ) (h1 : 180 ≤ |x - y|)
    (h2 : |x - y| ≤ 360) :
    haversine_meters 0 x 0 y = 6371000 * Real.pi / 180 * (360 - |x - y|) := by
  have hpi := Real.pi_pos
  have habs : |y - x| = |x - y| := abs_sub_comm y x
  unfold haversine_meters
  have hzero : ((0 : ℝ) * Real.pi / 180 - 0 * Real.pi / 180) / 2 = 0 := by ring
  have hzero2 : (0 : ℝ) * Real.pi / 180 = 0 := by ring
  rw [hzero, hzero2, Real.sin_zero, Real.cos_zero]
  set t : ℝ := (y * Real.pi / 180 - x * Real.pi / 180) / 2 with htdef
  have ht : t = (y - x) * (Real.pi / 360) := by rw [htdef]; ring
  have htabs : |t| = |x - y| * (Real.pi / 360) := by
    rw [ht, abs_mul, abs_of_pos (show (0 : ℝ) < Real.pi / 360 by positivity), habs]
  have ht2 : |t| ≤ Real.pi := by
    rw [htabs]
    calc |x - y| * (Real.pi / 360) ≤ 360 * (Real.pi / 360) :=
          mul_le_mul_of_nonneg_right h2 (by positivity)
      _ = Real.pi := by ring
  have htlow : Real.pi / 2 ≤ |t| := by
    rw [htabs]
    calc Real.pi / 2 = 180 * (Real.pi / 360) := by ring
      _ ≤ |x - y| * (Real.pi / 360) :=
          mul_le_mul_of_nonneg_right h1 (by positivity)
  have htle := abs_le.mp ht2
  have hsin : |Real.sin t| = Real.sin |t| := by
    rcases le_or_lt 0 t with hc | hc
    · rw [abs_of_nonneg hc, abs_of_nonneg]
      exact Real.sin_nonneg_of_nonneg_of_le_pi hc (by linarith)
    · rw [abs_of_nonpos
        (Real.sin_nonpos_of_nonnpos_of_neg_pi_le (le_of_lt hc) (by linarith)),
        abs_of_neg hc, Real.sin_neg]
  have harc : Real.arcsin (Real.sin |t|) = Real.pi - |t| := by
    rw [← Real.sin_pi_sub]
    exact Real.arcsin_sin (by linarith) (by linarith)
  have harg : (0 : ℝ) * 0 + 1 * 1 * Real.sin t * Real.sin t = Real.sin t ^ 2 := by
    ring
  rw [harg, Real.sqrt_sq_eq_abs, hsin, harc, htabs]
  ring

/-- On equatorial points with longitudes in `[0, 360]`, the real haversine
is exactly `6371000π/180` times the rational circle distance `Dcirc` used
in the concrete evaluations: the evaluated runs are runs of the program's
true distance up to this positive scale factor (every delta in them is a
whole number of degrees, so the `-1e-6` comparisons decide identically). -/
theorem havD_eq_circ (x y : ℚ) (h1 : 0 ≤ x) (h2 : x ≤ 360) (h3 : 0 ≤ y)
    (h4 : y ≤ 360) :
    havD 0 x 0 y = 6371000 * Real.pi / 180 * ((Dcirc 0 x 0 y : ℚ) : ℝ) := by
  have hcast : ((Dcirc 0 x 0 y : ℚ) : ℝ) =
      min |(x : ℝ) - (y : ℝ)| (360 - |(x : ℝ) - (y : ℝ)|) := by
    unfold Dcirc
    push_cast
    rfl
  have habsle : |(x : ℝ) - (y : ℝ)| ≤ 360 := by
    have hx1 : (0 : ℝ) ≤ (x : ℝ) := by exact_mod_cast h1
    have hx2 : (x : ℝ) ≤ 360 := by exact_mod_cast h2
    have hy1 : (0 : ℝ) ≤ (y : ℝ) := by exact_mod_cast h3
    have hy2 : (y : ℝ) ≤ 360 := by exact_mod_cast h4
    rw [abs_le]
    constructor <;> linarith
  rw [hcast]
  rcases le_total |(x : ℝ) - (y : ℝ)| 180 with hle | hge
  · rw [min_eq_left (by linarith), havD_equator x y hle]
  · rw [min_eq_right (by linarith)]
    unfold havD
    rw [show ((0 : ℚ) : ℝ) = 0 from by norm_num]
    exact haversine_meters_equator_wrap _ _ hge habsle


/-- `haversine_meters` factored through `haversineA`. -/
theorem haversine_meters_eq_arcsin (a_lat a_lon b_lat b_lon : ℝ) :
    haversine_meters a_lat a_lon b_lat b_lon =
      6371000 * (2 * Real.arcsin (Real.sqrt (haversineA a_lat a_lon b_lat b_lon))) :=
  rfl

/-- Supporting fact for claim C7: in exact real arithmetic the argument
passed to `asin` lies in `[0, 1]` for every input — the clamp the spec
mandates is a no-op at this level, so the missing guard of the source is
observable only under floating-point rounding. -/
theorem haversine_asin_arg_mem (a_lat a_lon b_lat b_lon : ℝ) :
    0 ≤ Real.sqrt (haversineA a_lat a_lon b_lat b_lon) ∧
      Real.sqrt (haversineA a_lat a_lon b_lat b_lon) ≤ 1 := by
  refine ⟨Real.sqrt_nonneg _, Real.sqrt_le_one.mpr ?_⟩
  unfold haversineA
  set p := (b_lat * Real.pi / 180 - a_lat * Real.pi / 180) / 2 with hp
  set q := (b_lon * Real.pi / 180 - a_lon * Real.pi / 180) / 2 with hq
  set u := a_lat * Real.pi / 180 with hu
  set v := b_lat * Real.pi / 180 with hv
  have h2p : 2 * p = v - u := by rw [hp, hu, hv]; ring
  have hpsq : Real.sin p * Real.sin p = (1 - Real.cos (v - u)) / 2 := by
    rw [← h2p]
    nlinarith [Real.cos_two_mul p, Real.sin_sq_add_cos_sq p]
  have hcc : Real.cos u * Real.cos v =
      (Real.cos (u - v) + Real.cos (u + v)) / 2 := by
    have hadd := Real.cos_add u v
    have hsub := Real.cos_sub u v
    linarith
  have hsq : Real.sin q * Real.sin q ≤ 1 := by
    nlinarith [Real.sin_sq_le_one q, sq (Real.sin q)]
  have hsqnn : 0 ≤ Real.sin q * Real.sin q := mul_self_nonneg _
  have hcuv : Real.cos (u - v) = Real.cos (v - u) := by
    rw [← Real.cos_neg (u - v)]
    congr 1
    ring
  rcases le_or_lt (Real.cos u * Real.cos v) 0 with hneg | hpos
  · nlinarith [Real.cos_le_one (v - u), Real.neg_one_le_cos (v - u),
      mul_nonneg (neg_nonneg.mpr hneg) hsqnn]
  · have hle : Real.cos u * Real.cos v * Real.sin q * Real.sin q ≤
        Real.cos u * Real.cos v := by
      have h1 : Real.cos u * Real.cos v * (Real.sin q * Real.sin q) ≤
          Real.cos u * Real.cos v * 1 :=
        mul_le_mul_of_nonneg_left hsq (le_of_lt hpos)
      nlinarith [h1]
    nlinarith [Real.cos_le_one (u + v), Real.neg_one_le_cos (u + v)]

/-! ## Decision transport: the concrete runs under the real haversine

On `GoodPt` coordinates every distance the algorithms compare is
`6371000π/180` times a whole-degree rational value, so each `<` comparison
and each `delta < -1e-6` test decides identically under `havD` and under
`Dcirc`. The following lemmas push this through the nearest-neighbor scan
and the 2-opt sweeps, so the kernel-evaluated `Dcirc` runs transport to the
real haversine. -/

/-- The origin used by `get_point` when everything is missing is a grid point. -/
theorem GoodPt_zero : GoodPt ((0 : ℚ), (0 : ℚ)) :=
  ⟨rfl, le_refl 0, by norm_num, ⟨0, by norm_num⟩⟩

/-- Pointwise scaling of the haversine on grid points. -/
theorem havD_scale {p q : ℚ × ℚ} (hp : GoodPt p) (hq : GoodPt q) :
    havD p.1 p.2 q.1 q.2 =
      6371000 * Real.pi / 180 * ((Dcirc p.1 p.2 q.1 q.2 : ℚ) : ℝ) := by
  obtain ⟨hp1, hp2, hp3, _⟩ := hp
  obtain ⟨hq1, hq2, hq3, _⟩ := hq
  rw [hp1, hq1]
  exact havD_eq_circ p.2 q.2 hp2 hp3 hq2 hq3

/-- On grid points the circle distance is a whole number of degrees. -/
theorem Dcirc_int {p q : ℚ × ℚ} (hp : GoodPt p) (hq : GoodPt q) :
    ∃ n : ℤ, Dcirc p.1 p.2 q.1 q.2 = (n : ℚ) := by
  obtain ⟨-, -, -, m, hm⟩ := hp
  obtain ⟨-, -, -, n, hn⟩ := hq
  refine ⟨min |m - n| (360 - |m - n|), ?_⟩
  show min |p.2 - q.2| (360 - |p.2 - q.2|) = _
  rw [hm, hn]
  push_cast
  rfl

/-- Strict comparisons of scaled distances agree with the rational ones. -/
theorem scale_lt_iff (a b : ℚ) :
    (6371000 * Real.pi / 180 * ((a : ℚ) : ℝ) <
        6371000 * Real.pi / 180 * ((b : ℚ) : ℝ)) ↔ a < b := by
  have hK : (0 : ℝ) < 6371000 * Real.pi / 180 := by positivity
  rw [mul_lt_mul_left hK]
  exact_mod_cast Iff.rfl

/-- The `-1e-6` acceptance test agrees between the scaled real value and the
rational value whenever the latter is a whole number of degrees. -/
theorem scale_threshold_iff (d : ℚ) (n : ℤ) (hd : d = (n : ℚ)) :
    (6371000 * Real.pi / 180 * ((d : ℚ) : ℝ) < -(1 / 1000000)) ↔
      d < -(1 / 1000000) := by
  have hK : (106000 : ℝ) < 6371000 * Real.pi / 180 := by
    linarith [Real.pi_gt_three]
  subst hd
  constructor
  · intro h
    rcases lt_or_le n 0 with hn | hn
    · have : (n : ℚ) ≤ -1 := by exact_mod_cast Int.le_sub_one_of_lt hn
      linarith
    · exfalso
      have h1 : (0 : ℝ) ≤ ((n : ℚ) : ℝ) := by exact_mod_cast hn
      nlinarith
  · intro h
    have hn : n < 0 := by
      by_contra hcon
      push_neg at hcon
      have : (0 : ℚ) ≤ (n : ℚ) := by exact_mod_cast hcon
      linarith
    have h1 : ((n : ℚ) : ℝ) ≤ -1 := by exact_mod_cast Int.le_sub_one_of_lt hn
    nlinarith

/-- Every point `get_point` can return on a grid route is a grid point. -/
theorem getPoint_good (r : Route) (h : GoodRoute r) (idxOpt : Option Nat) :
    GoodPt (getPoint r idxOpt) := by
  obtain ⟨hst, hdp⟩ := h
  have hfall : GoodPt (getPoint.getPointFallback r) := by
    unfold getPoint.getPointFallback
    cases hd : r.depot with
    | some dp => exact hdp dp hd
    | none =>
      cases hl : r.stops.getLast? with
      | some s => exact hst s (List.mem_of_mem_getLast? hl)
      | none => exact GoodPt_zero
  cases idxOpt with
  | none => exact hfall
  | some idx =>
    unfold getPoint
    cases hg : r.stops[idx]? with
    | some s => simpa [hg] using hst s (List.getElem?_mem hg)
    | none => simpa [hg] using hfall

/-- The swap delta under the real haversine is the scaled rational delta. -/
theorem delta_scale (r : Route) (h : GoodRoute r) (i k : Nat) :
    two_opt_swap_delta havD r i k =
      6371000 * Real.pi / 180 * ((two_opt_swap_delta Dcirc r i k : ℚ) : ℝ) := by
  have ha := getPoint_good r h (if i = 0 then none else some (i - 1))
  have hb := getPoint_good r h (some i)
  have hc := getPoint_good r h (some k)
  have hd2 := getPoint_good r h
    (if k + 1 ≥ r.stops.length then none else some (k + 1))
  simp only [two_opt_swap_delta]
  rw [havD_scale ha hb, havD_scale hc hd2, havD_scale ha hc, havD_scale hb hd2]
  push_cast
  ring

/-- The rational swap delta on a grid route is a whole number of degrees. -/
theorem delta_int (r : Route) (h : GoodRoute r) (i k : Nat) :
    ∃ n : ℤ, two_opt_swap_delta Dcirc r i k = (n : ℚ) := by
  have ha := getPoint_good r h (if i = 0 then none else some (i - 1))
  have hb := getPoint_good r h (some i)
  have hc := getPoint_good r h (some k)
  have hd2 := getPoint_good r h
    (if k + 1 ≥ r.stops.length then none else some (k + 1))
  obtain ⟨n1, h1⟩ := Dcirc_int ha hb
  obtain ⟨n2, h2⟩ := Dcirc_int hc hd2
  obtain ⟨n3, h3⟩ := Dcirc_int ha hc
  obtain ⟨n4, h4⟩ := Dcirc_int hb hd2
  refine ⟨n3 + n4 - (n1 + n2), ?_⟩
  simp only [two_opt_swap_delta]
  rw [h1, h2, h3, h4]
  push_cast
  ring

/-- A 2-opt reversal keeps a grid route a grid route. -/
theorem do_two_opt_swap_good {r : Route} (h : GoodRoute r) (i k : Nat)
    (hik : i ≤ k) : GoodRoute (do_two_opt_swap r i k) := by
  obtain ⟨hst, hdp⟩ := h
  exact ⟨fun s hs => hst s ((do_two_opt_swap_perm r i k hik).mem_iff.mp hs),
    fun dp hdp2 => hdp dp hdp2⟩

/-- One `(i, k)` step of a sweep takes the same decisions under the real
haversine as under the rational circle distance. -/
theorem sweepStep_transport (n : Nat) (s : Route × Bool) (h : GoodRoute s.1)
    (ik : Nat × Nat) : sweepStep havD n s ik = sweepStep Dcirc n s ik := by
  obtain ⟨m, hm⟩ := delta_int s.1 h ik.1 ik.2
  unfold sweepStep
  dsimp only
  by_cases hskip : ik.2 = n - 1 ∧ ik.1 = 0 ∧ s.1.depot = none
  · rw [if_pos hskip, if_pos hskip]
  · rw [if_neg hskip, if_neg hskip]
    have heq : (two_opt_swap_delta havD s.1 ik.1 ik.2 < -(1 / 1000000)) ↔
        (two_opt_swap_delta Dcirc s.1 ik.1 ik.2 < -(1 / 1000000)) := by
      rw [delta_scale s.1 h ik.1 ik.2]
      exact scale_threshold_iff _ m hm
    by_cases hacc : two_opt_swap_delta Dcirc s.1 ik.1 ik.2 < -(1 / 1000000)
    · rw [if_pos (heq.mpr hacc), if_pos hacc]
    · rw [if_neg (fun hcon => hacc (heq.mp hcon)), if_neg hacc]

/-- A sweep step keeps the route a grid route. -/
theorem sweepStep_good (n : Nat) (s : Route × Bool) (h : GoodRoute s.1)
    (ik : Nat × Nat) (hmem : ik ∈ sweepPairs n) :
    GoodRoute (sweepStep Dcirc n s ik).1 := by
  obtain ⟨i, k⟩ := ik
  obtain ⟨hik, hkn⟩ := sweepPairs_mem hmem
  unfold sweepStep
  dsimp only
  split
  · exact h
  · split
    · exact do_two_opt_swap_good h i k (by omega)
    · exact h

/-- Two folds with functions that agree on all invariant-satisfying states
coincide, and the invariant holds at the end. -/
theorem foldl_congr_preserve {β γ : Type _} {P : γ → Prop} {f g : γ → β → γ} :
    ∀ (l : List β) (init : γ), P init →
      (∀ s b, b ∈ l → P s → f s b = g s b ∧ P (g s b)) →
      l.foldl f init = l.foldl g init ∧ P (l.foldl g init)
  | [], _, h0, _ => ⟨rfl, h0⟩
  | b :: rest, init, h0, hfg => by
    obtain ⟨heq, hP⟩ := hfg init b (List.mem_cons_self b rest) h0
    have ih := foldl_congr_preserve rest (g init b) hP
      (fun s b2 hb hs => hfg s b2 (List.mem_cons_of_mem b hb) hs)
    constructor
    · show List.foldl f (f init b) rest = List.foldl g (g init b) rest
      rw [heq]
      exact ih.1
    · exact ih.2

/-- A whole sweep takes the same decisions under the real haversine as
under the rational circle distance, and preserves grid routes. -/
theorem sweep_transport (r : Route) (h : GoodRoute r) :
    sweep havD r = sweep Dcirc r ∧ GoodRoute (sweep Dcirc r).1 := by
  unfold sweep
  refine @foldl_congr_preserve (Nat × Nat) (Route × Bool) (fun s => GoodRoute s.1)
    (sweepStep havD r.stops.length) (sweepStep Dcirc r.stops.length)
    (sweepPairs r.stops.length) (r, false) h ?_
  intro s ik hmem hP
  exact ⟨sweepStep_transport r.stops.length s hP ik,
    sweepStep_good r.stops.length s hP ik hmem⟩

/-- The sweep loop transports from the real haversine to the circle
distance on grid routes, for any fuel. -/
theorem twoOptLoop_transport (fuel : Nat) :
    ∀ (r : Route), GoodRoute r →
      twoOptLoop havD fuel r = twoOptLoop Dcirc fuel r := by
  induction fuel with
  | zero => intro r _; rfl
  | succ f ih =>
    intro r h
    obtain ⟨heq, hgood⟩ := sweep_transport r h
    unfold twoOptLoop
    rw [heq]
    cases hs : sweep Dcirc r with
    | mk r1 flag =>
      rw [hs] at hgood
      cases flag with
      | true => exact ih r1 hgood
      | false => rfl

/-- `two_opt` transports from the real haversine to the circle distance on
grid routes. -/
theorem two_opt_transport (fuel : Nat) (r : Route) (h : GoodRoute r) :
    two_opt havD fuel r = two_opt Dcirc fuel r := by
  unfold two_opt
  by_cases h3 : r.stops.length < 3
  · rw [if_pos h3, if_pos h3]
  · rw [if_neg h3, if_neg h3]
    exact twoOptLoop_transport fuel r h

/-- The nearest-stop scan takes the same decisions under the real haversine
(with the scaled best-so-far) as under the circle distance. -/
theorem selectIdxAux_transport (cur : Stop) (hcur : GoodPt (cur.lat, cur.lon)) :
    ∀ (l : List Stop) (i b : Nat) (best : Option ℚ),
      (∀ s ∈ l, GoodPt (s.lat, s.lon)) →
      selectIdxAux havD cur l i b
        (best.map (fun q => 6371000 * Real.pi / 180 * ((q : ℚ) : ℝ))) =
        selectIdxAux Dcirc cur l i b best := by
  intro l
  induction l with
  | nil => intro i b best _; cases best <;> rfl
  | cons s rest ih =>
    intro i b best hl
    have hs : GoodPt (s.lat, s.lon) := hl s (List.mem_cons_self s rest)
    have hrest : ∀ x ∈ rest, GoodPt (x.lat, x.lon) :=
      fun x hx => hl x (List.mem_cons_of_mem s hx)
    have hd : sdist havD cur s =
        6371000 * Real.pi / 180 * ((sdist Dcirc cur s : ℚ) : ℝ) := by
      simpa [sdist] using havD_scale hcur hs
    unfold selectIdxAux
    dsimp only
    cases best with
    | none =>
      rw [hd]
      simpa using ih (i + 1) i (some (sdist Dcirc cur s)) hrest
    | some bd =>
      rw [show Option.map (fun q : ℚ => 6371000 * Real.pi / 180 * ((q : ℚ) : ℝ))
        (some bd) = some (6371000 * Real.pi / 180 * ((bd : ℚ) : ℝ)) from rfl]
      dsimp only
      rw [hd]
      by_cases hlt : sdist Dcirc cur s < bd
      · rw [if_pos ((scale_lt_iff _ _).mpr hlt), if_pos hlt]
        simpa using ih (i + 1) i (some (sdist Dcirc cur s)) hrest
      · rw [if_neg (fun hcon => hlt ((scale_lt_iff _ _).mp hcon)), if_neg hlt]
        simpa using ih (i + 1) b (some bd) hrest

/-- The selected index coincides under both distances. -/
theorem selectIdx_transport (cur : Stop) (hcur : GoodPt (cur.lat, cur.lon))
    (l : List Stop) (hl : ∀ s ∈ l, GoodPt (s.lat, s.lon)) :
    selectIdx havD cur l = selectIdx Dcirc cur l := by
  unfold selectIdx
  simpa using selectIdxAux_transport cur hcur l 0 0 none hl

/-- The greedy walk coincides under both distances on grid stops. -/
theorem nnLoop_transport (fuel : Nat) :
    ∀ (cur : Stop) (l : List Stop), GoodPt (cur.lat, cur.lon) →
      (∀ s ∈ l, GoodPt (s.lat, s.lon)) →
      nnLoop havD fuel cur l = nnLoop Dcirc fuel cur l := by
  induction fuel with
  | zero => intro cur l _ _; rfl
  | succ f ih =>
    intro cur l hcur hl
    cases l with
    | nil => rfl
    | cons s rest =>
      unfold nnLoop
      dsimp only
      rw [selectIdx_transport cur hcur (s :: rest) hl]
      have hnext : GoodPt
          (((s :: rest).getD (selectIdx Dcirc cur (s :: rest)) cur).lat,
           ((s :: rest).getD (selectIdx Dcirc cur (s :: rest)) cur).lon) := by
        rcases lt_or_le (selectIdx Dcirc cur (s :: rest)) (s :: rest).length
          with hlt | hge
        · have hgd : (s :: rest).getD (selectIdx Dcirc cur (s :: rest)) cur =
              (s :: rest).get ⟨selectIdx Dcirc cur (s :: rest), hlt⟩ := by
            rw [List.getD_eq_getElem?_getD, List.getElem?_eq_getElem hlt]
            rfl
          rw [hgd]
          exact hl _ (List.get_mem _ _ hlt)
        · have hgd : (s :: rest).getD (selectIdx Dcirc cur (s :: rest)) cur =
              cur := by
            rw [List.getD_eq_getElem?_getD, List.getElem?_eq_none hge]
            rfl
          rw [hgd]
          exact hcur
      have herased : ∀ x ∈ (s :: rest).eraseIdx (selectIdx Dcirc cur (s :: rest)),
          GoodPt (x.lat, x.lon) :=
        fun x hx => hl x (List.mem_of_mem_eraseIdx hx)
      rw [ih _ _ hnext herased]

/-- `build_nearest_neighbor` coincides under both distances on grid routes. -/
theorem build_nearest_neighbor_transport (r : Route) (h : GoodRoute r) :
    build_nearest_neighbor havD r = build_nearest_neighbor Dcirc r := by
  obtain ⟨hst, hdp⟩ := h
  unfold build_nearest_neighbor
  by_cases he : r.stops.isEmpty
  · rw [if_pos he, if_pos he]
  · rw [if_neg he, if_neg he]
    cases hd : r.depot with
    | some dp =>
      dsimp only
      rw [nnLoop_transport r.stops.length dp r.stops (hdp dp hd) hst]
    | none =>
      cases hs : r.stops with
      | nil => rfl
      | cons s0 rest =>
        have hs0 : GoodPt (s0.lat, s0.lon) :=
          hst s0 (hs ▸ List.mem_cons_self s0 rest)
        have hrest : ∀ x ∈ rest, GoodPt (x.lat, x.lon) :=
          fun x hx => hst x (hs ▸ List.mem_cons_of_mem s0 hx)
        dsimp only
        rw [nnLoop_transport rest.length s0 rest hs0 hrest]

/-- Accumulated leg distances scale from `Dcirc` to the real haversine on
grid stops. -/
theorem distLoop_scale :
    ∀ (l : List Stop), (∀ s ∈ l, GoodPt (s.lat, s.lon)) →
      ∀ (p : Option Stop), (∀ s, p = some s → GoodPt (s.lat, s.lon)) →
      distLoop havD p l =
        6371000 * Real.pi / 180 * ((distLoop Dcirc p l : ℚ) : ℝ) := by
  intro l
  induction l with
  | nil => intro _ p _; simp [distLoop]
  | cons s rest ih =>
    intro hl p hp
    have hs : GoodPt (s.lat, s.lon) := hl s (List.mem_cons_self s rest)
    have hrest : ∀ x ∈ rest, GoodPt (x.lat, x.lon) :=
      fun x hx => hl x (List.mem_cons_of_mem s hx)
    have hihs := ih hrest (some s)
      (fun x hx => by injection hx with h2; rw [← h2]; exact hs)
    unfold distLoop
    cases p with
    | none =>
      dsimp only
      rw [hihs]
      push_cast
      ring
    | some prev =>
      have hprev : GoodPt (prev.lat, prev.lon) := hp prev rfl
      have hdist : sdist havD prev s =
          6371000 * Real.pi / 180 * ((sdist Dcirc prev s : ℚ) : ℝ) := by
        simpa [sdist] using havD_scale hprev hs
      dsimp only
      rw [hdist, hihs]
      push_cast
      ring

/-- `total_distance_meters` scales from `Dcirc` to the real haversine on
grid routes. -/
theorem total_distance_meters_scale (r : Route) (h : GoodRoute r) :
    total_distance_meters havD r =
      6371000 * Real.pi / 180 * ((total_distance_meters Dcirc r : ℚ) : ℝ) := by
  obtain ⟨hst, hdp⟩ := h
  have h1 := distLoop_scale r.stops hst r.depot (fun s hs => hdp s hs)
  unfold total_distance_meters
  cases hd : r.depot with
  | none =>
    rw [hd] at h1
    dsimp only
    rw [h1]
    push_cast
    ring
  | some dp =>
    rw [hd] at h1
    cases hl : r.stops.getLast? with
    | none =>
      dsimp only
      rw [h1]
      push_cast
      ring
    | some last =>
      have hlast : GoodPt (last.lat, last.lon) :=
        hst last (List.mem_of_mem_getLast? hl)
      have hleg : sdist havD last dp =
          6371000 * Real.pi / 180 * ((sdist Dcirc last dp : ℚ) : ℝ) := by
        simpa [sdist] using havD_scale hlast (hdp dp hd)
      dsimp only
      rw [h1, hleg]
      push_cast
      ring

/-- Grid-point introduction for a concrete whole-degree longitude. -/
theorem GoodPt_deg (q : ℚ) (n : ℤ) (h0 : q = (n : ℚ)) (h1 : 0 ≤ q)
    (h2 : q ≤ 360) : GoodPt (0, q) :=
  ⟨rfl, h1, h2, n, h0⟩

/-- The C4 route is a grid route. -/
theorem exR4_good : GoodRoute exR4 := by
  constructor
  · intro s hs
    simp only [exR4, List.mem_cons, List.not_mem_nil, or_false] at hs
    rcases hs with rfl | rfl | rfl | rfl | rfl | rfl | rfl
    · exact GoodPt_deg 261 261 (by norm_num) (by norm_num) (by norm_num)
    · exact GoodPt_deg 325 325 (by norm_num) (by norm_num) (by norm_num)
    · exact GoodPt_deg 115 115 (by norm_num) (by norm_num) (by norm_num)
    · exact GoodPt_deg 224 224 (by norm_num) (by norm_num) (by norm_num)
    · exact GoodPt_deg 302 302 (by norm_num) (by norm_num) (by norm_num)
    · exact GoodPt_deg 259 259 (by norm_num) (by norm_num) (by norm_num)
    · exact GoodPt_deg 112 112 (by norm_num) (by norm_num) (by norm_num)
  · intro dp hdp
    simp [exR4] at hdp

/-- The nearest-neighbor output `exR4nn` is a grid route. -/
theorem exR4nn_good : GoodRoute exR4nn := by
  constructor
  · intro s hs
    simp only [exR4nn, List.mem_cons, List.not_mem_nil, or_false] at hs
    rcases hs with rfl | rfl | rfl | rfl | rfl | rfl
    · exact GoodPt_deg 259 259 (by norm_num) (by norm_num) (by norm_num)
    · exact GoodPt_deg 224 224 (by norm_num) (by norm_num) (by norm_num)
    · exact GoodPt_deg 302 302 (by norm_num) (by norm_num) (by norm_num)
    · exact GoodPt_deg 325 325 (by norm_num) (by norm_num) (by norm_num)
    · exact GoodPt_deg 112 112 (by norm_num) (by norm_num) (by norm_num)
    · exact GoodPt_deg 115 115 (by norm_num) (by norm_num) (by norm_num)
  · intro dp hdp
    simp [exR4nn] at hdp

/-- The 2-opt output `exR4opt` is a grid route. -/
theorem exR4opt_good : GoodRoute exR4opt := by
  constructor
  · intro s hs
    simp only [exR4opt, List.mem_cons, List.not_mem_nil, or_false] at hs
    rcases hs with rfl | rfl | rfl | rfl | rfl | rfl
    · exact GoodPt_deg 224 224 (by norm_num) (by norm_num) (by norm_num)
    · exact GoodPt_deg 259 259 (by norm_num) (by norm_num) (by norm_num)
    · exact GoodPt_deg 325 325 (by norm_num) (by norm_num) (by norm_num)
    · exact GoodPt_deg 302 302 (by norm_num) (by norm_num) (by norm_num)
    · exact GoodPt_deg 112 112 (by norm_num) (by norm_num) (by norm_num)
    · exact GoodPt_deg 115 115 (by norm_num) (by norm_num) (by norm_num)
  · intro dp hdp
    simp [exR4opt] at hdp

unseal Rat.add Rat.sub Rat.mul Rat.inv in
set_option maxRecDepth 100000 in
/-- Claim C4: `total_distance_meters` after `two_opt` is claimed to be at
most its value after `build_nearest_neighbor`. Under the real haversine
distance, on the depot-less route `exR4` the nearest-neighbor construction
yields `exR4nn` (286 degree-arcs of tour), and `two_opt` reaches its fixed
point at `exR4opt` (297 degree-arcs) — strictly worse. The run is
transported from the kernel-evaluated rational circle distance by the
decision-transport lemmas above. -/
theorem two_opt_worsens_tour_after_nn :
    build_nearest_neighbor havD exR4 = exR4nn ∧
      two_opt havD 10 exR4nn = some exR4opt ∧
      total_distance_meters havD exR4nn = 6371000 * Real.pi / 180 * 286 ∧
      total_distance_meters havD exR4opt = 6371000 * Real.pi / 180 * 297 ∧
      total_distance_meters havD exR4nn <
        total_distance_meters havD exR4opt := by
  have hK : (106000 : ℝ) < 6371000 * Real.pi / 180 := by
    linarith [Real.pi_gt_three]
  have h1 : build_nearest_neighbor Dcirc exR4 = exR4nn := by decide
  have h2 : two_opt Dcirc 10 exR4nn = some exR4opt := by decide
  have h3 : total_distance_meters Dcirc exR4nn = 286 := by decide
  have h4 : total_distance_meters Dcirc exR4opt = 297 := by decide
  have ht1 : total_distance_meters havD exR4nn =
      6371000 * Real.pi / 180 * 286 := by
    rw [total_distance_meters_scale exR4nn exR4nn_good, h3]
    norm_num
  have ht2 : total_distance_meters havD exR4opt =
      6371000 * Real.pi / 180 * 297 := by
    rw [total_distance_meters_scale exR4opt exR4opt_good, h4]
    norm_num
  refine ⟨?_, ?_, ht1, ht2, ?_⟩
  · rw [build_nearest_neighbor_transport exR4 exR4_good, h1]
  · rw [two_opt_transport 10 exR4nn exR4nn_good, h2]
  · rw [ht1, ht2]
    linarith
